import Mathlib

/-!
Shallow embedding of `src/server.js` (my-website-backend): an Express/MongoDB
REST backend with user registration/login (bcrypt-hashed passwords), posts,
per-user portfolio sections, user search, profile-picture update, and (per the
specification) a QR-code generator.  MongoDB documents become Lean structures,
each collection a list, and every HTTP handler a pure function from the
request and the database state to the next state and the HTTP response.
Nondeterministic environment inputs (bcrypt salt, generated ObjectIds,
timestamps, stored upload filenames) are passed in explicitly; `bcrypt.hash`
and `bcrypt.compare` are abstract function parameters, since their internals
are outside the repository.
-/

namespace MyWebsiteBackend

/-- A document of the `User` collection (`userSchema`, `src/server.js:33-40`):
unique `email`, unique `username`, `password` (the bcrypt hash), optional
`dob`, `gender`, `profilePicture`.  Mongo ObjectIds are modelled as `Nat`. -/
structure User where
  id : Nat
  email : String
  username : String
  password : String
  dob : Option String := none
  gender : Option String := none
  profilePicture : Option String := none
deriving Repr, DecidableEq

/-- A document of the `Post` collection (`postSchema`, `src/server.js:45-50`):
owning `userId`, `content`, list of `imageUrl`s, `createdAt` timestamp
(modelled as `Nat` milliseconds). -/
structure Post where
  id : Nat
  userId : Nat
  content : String
  imageUrl : List String
  createdAt : Nat
deriving Repr, DecidableEq

/-- A document of the `Section` collection (`sectionSchema`,
`src/server.js:55-59`): owning `userId`, `sectionId`, `content`. -/
structure SectionDoc where
  userId : Nat
  sectionId : String
  content : String
deriving Repr, DecidableEq

/-- The MongoDB database state: the three collections used by the server. -/
structure DB where
  users : List User
  posts : List Post
  sections : List SectionDoc
deriving Repr, DecidableEq

/-- The empty database (fresh deployment). -/
def DB.empty : DB := ⟨[], [], []⟩

/-- A post as returned by `GET /user-posts/:userId` after
`.populate('userId', 'username profilePicture')`: the `userId` field is
replaced by the owning user's `(_id, username, profilePicture)` projection,
or `none` when the referenced user does not exist. -/
structure PostView where
  id : Nat
  user : Option (Nat × String × Option String)
  content : String
  imageUrl : List String
  createdAt : Nat
deriving Repr, DecidableEq

/-- HTTP response bodies produced by the handlers (the JSON shapes that
appear in `src/server.js`; the status code is carried alongside). -/
inductive Resp where
  /-- `{ message: ... }` bodies. -/
  | msg (message : String)
  /-- `/login` success: `{ username, profilePicture, userId }`. -/
  | loginOk (username : String) (profilePicture : Option String) (userId : Nat)
  /-- `/create-post` success: `{ message, imageUrl }`. -/
  | createPostOk (message : String) (imageUrl : List String)
  /-- `/user-posts/:userId` success: the populated post array. -/
  | posts (views : List PostView)
  /-- `/update-profile-picture` success: `{ message, profilePicture }`. -/
  | updatePicOk (message : String) (profilePicture : Option String)
  /-- `/search-users` success: array of `{ _id, username }` documents
  (Mongoose `.select('username')` keeps `_id`). -/
  | searchOk (entries : List (Nat × String))
  /-- `/users/:userId` success: `{ _id, username, profilePicture }`. -/
  | userOk (id : Nat) (username : String) (profilePicture : Option String)
  /-- `/save-section` success: the resulting section document. -/
  | sectionOk (s : SectionDoc)
  /-- `/get-sections/:userId` success: object mapping sectionId to content. -/
  | sectionsOk (m : List (String × String))
deriving Repr, DecidableEq

/-- The multer storage layer (`src/server.js:64-73`) stores an upload under a
timestamp-based filename and the handlers reference it as
`/uploads/<filename>`; `fileUrl` forms that public reference. -/
def fileUrl (filename : String) : String := "/uploads/" ++ filename

/-- Handler for `POST /register` (`src/server.js:76-96`).  `hash salt pw cost` stands for
`bcrypt.hash(pw, cost)` with the random salt made explicit.  Checks
`User.findOne({ $or: [{ email }, { username }] })`; on conflict responds
400 without touching the store, otherwise persists the user with the
cost-10 hash and responds 201. -/
def register (hash : String → String → Nat → String) (salt : String)
    (nextId : Nat) (db : DB) (email username password : String)
    (dob gender : Option String) (file : Option String) :
    DB × Nat × Resp :=
  let profilePicture := file.map fileUrl
  if db.users.any (fun u => u.email == email || u.username == username) then
    (db, 400, .msg "Email or username already exists")
  else
    let hashedPassword := hash salt password 10
    let user : User :=
      { id := nextId, email := email, username := username,
        password := hashedPassword, dob := dob, gender := gender,
        profilePicture := profilePicture }
    ({ db with users := db.users ++ [user] }, 201,
      .msg "User registered successfully")

/-- Handler for `POST /login` (`src/server.js:99-122`).  `compare pw stored` stands for
`bcrypt.compare(pw, stored)`.  Unknown username and failed comparison both
yield the same `400 Invalid username or password`; success responds 200 with
`{ username, profilePicture, userId }` only. -/
def login (compare : String → String → Bool) (db : DB)
    (username password : String) : Nat × Resp :=
  match db.users.find? (fun u => u.username == username) with
  | none => (400, .msg "Invalid username or password")
  | some user =>
    if compare password user.password then
      (200, .loginOk user.username user.profilePicture user.id)
    else
      (400, .msg "Invalid username or password")

/-- Handler for `POST /create-post` (`src/server.js:125-139`).  `files` are the stored
upload filenames; the post records `/uploads/`-prefixed URLs.  No check that
`userId` references an existing user. -/
def createPost (nextId now : Nat) (db : DB) (userId : Nat) (content : String)
    (files : List String) : DB × Nat × Resp :=
  let imageUrl := files.map fileUrl
  let post : Post :=
    { id := nextId, userId := userId, content := content,
      imageUrl := imageUrl, createdAt := now }
  ({ db with posts := db.posts ++ [post] }, 201,
    .createPostOk "Post created successfully" imageUrl)

/-- The `.populate('userId', 'username profilePicture')` projection for one
post: look up the owning user and expose `(_id, username, profilePicture)`. -/
def populatePost (db : DB) (p : Post) : PostView :=
  { id := p.id,
    user := (db.users.find? (fun u => u.id == p.userId)).map
      (fun u => (u.id, u.username, u.profilePicture)),
    content := p.content, imageUrl := p.imageUrl, createdAt := p.createdAt }

/-- Handler for `GET /user-posts/:userId` (`src/server.js:142-154`):
`Post.find({ userId }).populate(...).sort({ createdAt: -1 })`. -/
def userPosts (db : DB) (userId : Nat) : Nat × Resp :=
  let mine := db.posts.filter (fun p => p.userId == userId)
  let sorted := mine.mergeSort (fun a b => decide (b.createdAt ≤ a.createdAt))
  (200, .posts (sorted.map (populatePost db)))

/-- Replace the profile picture of the user with the given id (the
`user.profilePicture = ...; await user.save()` update). -/
def setPicture (users : List User) (userId : Nat) (pp : Option String) :
    List User :=
  users.map (fun u => if u.id == userId then { u with profilePicture := pp } else u)

/-- Handler for `POST /update-profile-picture`, plain variant (`src/server.js:157-175`).
With no file attached, `profilePicture` is `null` and the stored reference is
overwritten with `null`; responds 200.  Unknown user responds 404. -/
def updateProfilePicture (db : DB) (userId : Nat) (file : Option String) :
    DB × Nat × Resp :=
  let profilePicture := file.map fileUrl
  match db.users.find? (fun u => u.id == userId) with
  | none => (db, 404, .msg "User not found")
  | some _ =>
    ({ db with users := setPicture db.users userId profilePicture }, 200,
      .updatePicOk "Profile picture updated successfully" profilePicture)

/-- Handler for `POST /update-profile-picture`, git-sync variant (`src/server.js:434-455`).
Identical up to and including `await user.save()`; afterwards it evaluates
`req.file.path` for `commitAndPushFiles`.  With no file attached this throws
(`req.file` is `undefined`), the `catch` turns it into a 500 — but the save
has already been awaited, so the mutation persists. -/
def updateProfilePictureGit (db : DB) (userId : Nat) (file : Option String) :
    DB × Nat × Resp :=
  let profilePicture := file.map fileUrl
  match db.users.find? (fun u => u.id == userId) with
  | none => (db, 404, .msg "User not found")
  | some _ =>
    let db' := { db with users := setPicture db.users userId profilePicture }
    match file with
    | some _ => (db', 200,
        .updatePicOk "Profile picture updated successfully" profilePicture)
    | none => (db', 500, .msg "Internal server error")

/-! ### Search: the `$regex` fragment

`GET /search-users` runs `User.find({ username: { $regex: query, $options:
'i' } })`: the raw query string is used as a case-insensitive regular
expression, matched anywhere in the username.  We embed only a fragment of
the regex language: literal characters plus the `.` wildcard.  On a pattern
containing any other PCRE metacharacter (`regexMetachars` below) this
fragment diverges from the full engine — e.g. `a*` matches every subject in
PCRE, and `[` is an invalid pattern the handler turns into a 500 — so every
theorem that relies on the fragment's faithfulness restricts its pattern to
contain no metacharacter at all, and the counterexample uses only `.`,
where the fragment is exact. -/

/-- The PCRE regex metacharacters.  A pattern containing none of them is a
literal pattern; only on such patterns (plus the lone `.` wildcard handled
explicitly) does the embedded fragment agree with the full engine. -/
def regexMetachars : List Char :=
  ['.', '*', '+', '?', '[', ']', '(', ')', '^', '$', '|', '\\', '\x7b', '\x7d']

/-- Does the pattern match a prefix of the subject?  Case-insensitive
(`$options: 'i'`); `.` matches any single character; every other character
is treated as a literal, which is faithful to the engine only when the
pattern contains no metacharacter from `regexMetachars` besides `.`. -/
def regexMatchHere : List Char → List Char → Bool
  | [], _ => true
  | _ :: _, [] => false
  | p :: ps, c :: cs =>
    (p == '.' || p.toLower == c.toLower) && regexMatchHere ps cs

/-- Unanchored match: does the pattern match at some position of the
subject?  (Mongo `$regex` without anchors searches anywhere.)  Same
faithfulness domain as `regexMatchHere`. -/
def regexSearch (pat : List Char) : List Char → Bool
  | [] => regexMatchHere pat []
  | c :: cs => regexMatchHere pat (c :: cs) || regexSearch pat cs

/-- Handler for `GET /search-users` (`src/server.js:178-192`).  A missing or empty
`query` is falsy in `if (!query)` and is rejected with 400; otherwise the
query is handed to `$regex` with option `i` and the result is projected to
`{ _id, username }` by `.select('username')`. -/
def searchUsers (db : DB) (query : Option String) : Nat × Resp :=
  match query with
  | none => (400, .msg "Query parameter is required")
  | some q =>
    if q == "" then (400, .msg "Query parameter is required")
    else
      (200, .searchOk
        (((db.users.filter (fun u => regexSearch q.data u.username.data)).map
          (fun u => (u.id, u.username)))))

/-- Handler for `GET /users/:userId` (`src/server.js:195-208`):
`User.findById(userId).select('username profilePicture')`; 404 when the
user does not exist. -/
def getUser (db : DB) (userId : Nat) : Nat × Resp :=
  match db.users.find? (fun u => u.id == userId) with
  | none => (404, .msg "User not found")
  | some u => (200, .userOk u.id u.username u.profilePicture)

/-- Update the first section document matching `(userId, sectionId)` to the
new content (`findOneAndUpdate` touches a single document). -/
def updateFirstSection (userId : Nat) (sectionId content : String) :
    List SectionDoc → List SectionDoc
  | [] => []
  | s :: rest =>
    if s.userId == userId && s.sectionId == sectionId then
      { s with content := content } :: rest
    else s :: updateFirstSection userId sectionId content rest

/-- Handler for `POST /save-section` (`src/server.js:211-225`):
`Section.findOneAndUpdate({ userId, sectionId }, { content }, { new: true,
upsert: true })` — update the matching document's content, or insert a new
document when none matches; respond 200 with the resulting document. -/
def saveSection (db : DB) (userId : Nat) (sectionId content : String) :
    DB × Nat × Resp :=
  match db.sections.find?
      (fun s => s.userId == userId && s.sectionId == sectionId) with
  | some s =>
    ({ db with sections := updateFirstSection userId sectionId content db.sections },
      200, .sectionOk { s with content := content })
  | none =>
    let s : SectionDoc := ⟨userId, sectionId, content⟩
    ({ db with sections := db.sections ++ [s] }, 200, .sectionOk s)

/-- Remove the first post with the given id (`findByIdAndDelete`: deletes the
document with that `_id` when present, a no-op otherwise). -/
def removeFirstPost (postId : Nat) : List Post → List Post
  | [] => []
  | p :: rest => if p.id == postId then rest else p :: removeFirstPost postId rest

/-- Handler for `DELETE /delete-post/:postId` (`src/server.js:228-238`):
`Post.findByIdAndDelete(postId)` then 200, with no existence check — the
response is 200 whether or not the id referenced a post. -/
def deletePost (db : DB) (postId : Nat) : DB × Nat × Resp :=
  ({ db with posts := removeFirstPost postId db.posts }, 200,
    .msg "Post deleted successfully")

/-- Assign `m[k] = v` on a JavaScript object modelled as an insertion-ordered
association list: overwrite in place if the key exists, append otherwise. -/
def setKey (m : List (String × String)) (k v : String) :
    List (String × String) :=
  if m.any (fun kv => kv.1 == k) then
    m.map (fun kv => if kv.1 == k then (k, v) else kv)
  else m ++ [(k, v)]

/-- Lookup on the association-list object (`undefined` is `none`). -/
def lookupKey (m : List (String × String)) (k : String) : Option String :=
  (m.find? (fun kv => kv.1 == k)).map (fun kv => kv.2)

/-- Handler for `GET /get-sections/:userId` (`src/server.js:241-256`):
`Section.find({ userId })` then
`reduce((acc, s) => { acc[s.sectionId] = s.content; return acc }, {})`. -/
def getSections (db : DB) (userId : Nat) : Nat × Resp :=
  (200, .sectionsOk
    ((db.sections.filter (fun s => s.userId == userId)).foldl
      (fun acc s => setKey acc s.sectionId s.content) []))

/-! ### QR generator (modelled from the spec)

No `/generate-qr` handler appears in `src/server.js`; the specification
(§4.5, §6) documents it, so it is modelled from the spec's words. -/

/-- Modelled from the spec: the QR symbol produced for a URL.  The repository
does not contain the `/generate-qr` handler; per §4.5 it "renders a
fixed-size (200×200) QR symbol encoding the literal string".  `payload` is
the encoded string; `scan`ning returns it. -/
structure QrImage where
  width : Nat
  height : Nat
  payload : String
deriving Repr, DecidableEq

/-- Modelled from the spec: scanning a QR symbol recovers the encoded
literal string. -/
def QrImage.scan (img : QrImage) : String := img.payload

/-- Modelled from the spec: render the 200×200 QR symbol for a URL. -/
def qrRender (url : String) : QrImage := ⟨200, 200, url⟩

/-- Modelled from the spec: serialise a QR symbol as an embedded-image data
URL (§4.5: "returns it as an embedded-image data URL"). -/
def qrDataUrl (img : QrImage) : String :=
  "data:image/png;base64," ++ img.payload

/-- Modelled from the spec: the `POST /generate-qr` handler, absent from
`src/server.js`.  Per §4.5/§6: "fails with BadRequest if url is
absent/empty; otherwise renders a fixed-size (200×200) QR symbol encoding
the literal string and returns it as an embedded-image data URL.  Pure,
stateless, no persistence."  It reads and writes no database state, which
the explicit state-passing form `generateQrH` makes checkable. -/
def generateQr (url : Option String) : Nat × Option String :=
  match url with
  | none => (400, none)
  | some u => if u == "" then (400, none) else (200, some (qrDataUrl (qrRender u)))

/-- Modelled from the spec: `generateQr` lifted to the state-passing shape of
the other handlers, to state that it persists nothing. -/
def generateQrH (db : DB) (url : Option String) :
    DB × Nat × Option String :=
  (db, generateQr url)

/-! ### The request dispatcher

One constructor per route of `src/server.js`, carrying the request data
together with the environment inputs the handler consumes (bcrypt salt,
generated ObjectId, `Date.now()`, stored upload filenames). -/

/-- A request to one of the server's routes. -/
inductive Req where
  | register (salt : String) (nextId : Nat) (email username password : String)
      (dob gender : Option String) (file : Option String)
  | login (username password : String)
  | createPost (nextId now : Nat) (userId : Nat) (content : String)
      (files : List String)
  | userPosts (userId : Nat)
  | updateProfilePicture (userId : Nat) (file : Option String)
  | searchUsers (query : Option String)
  | getUser (userId : Nat)
  | saveSection (userId : Nat) (sectionId content : String)
  | deletePost (postId : Nat)
  | getSections (userId : Nat)
deriving Repr, DecidableEq

/-- Dispatch a request to its handler (`hash` and `compare` are the bcrypt
primitives). -/
def handle (hash : String → String → Nat → String)
    (compare : String → String → Bool) (req : Req) (db : DB) :
    DB × Nat × Resp :=
  match req with
  | .register salt nextId email username password dob gender file =>
    register hash salt nextId db email username password dob gender file
  | .login username password =>
    (db, login compare db username password)
  | .createPost nextId now userId content files =>
    createPost nextId now db userId content files
  | .userPosts userId => (db, userPosts db userId)
  | .updateProfilePicture userId file => updateProfilePicture db userId file
  | .searchUsers query => (db, searchUsers db query)
  | .getUser userId => (db, getUser db userId)
  | .saveSection userId sectionId content => saveSection db userId sectionId content
  | .deletePost postId => deletePost db postId
  | .getSections userId => (db, getSections db userId)

/-- Run a sequence of requests from a starting state, keeping only the
final state. -/
def run (hash : String → String → Nat → String)
    (compare : String → String → Bool) (db : DB) : List Req → DB
  | [] => db
  | req :: reqs => run hash compare (handle hash compare req db).1 reqs

/-- All strings occurring in one populated post view. -/
def PostView.strings (v : PostView) : List String :=
  v.content :: v.imageUrl ++
    (match v.user with
     | some (_, un, pp) => un :: pp.toList
     | none => [])

/-- All strings occurring in a response body. -/
def Resp.strings : Resp → List String
  | .msg m => [m]
  | .loginOk un pp _ => un :: pp.toList
  | .createPostOk m urls => m :: urls
  | .posts vs => vs.flatMap PostView.strings
  | .updatePicOk m pp => m :: pp.toList
  | .searchOk es => es.map (fun e => e.2)
  | .userOk _ un pp => un :: pp.toList
  | .sectionOk s => [s.sectionId, s.content]
  | .sectionsOk m => m.flatMap (fun kv => [kv.1, kv.2])

/-- The fixed response-message constants of `src/server.js`. -/
def messageConsts : List String :=
  ["User registered successfully", "Email or username already exists",
   "Invalid username or password", "Post created successfully",
   "User not found", "Profile picture updated successfully",
   "Query parameter is required", "Post deleted successfully",
   "Internal server error"]

/-- The non-secret strings of a request: everything the client sent except
the password fields of `/register` and `/login`, plus the `/uploads/` URLs
derived from its uploaded files. -/
def Req.publicStrings : Req → List String
  | .register _ _ email username _ dob gender file =>
    email :: username :: (dob.toList ++ gender.toList ++ (file.map fileUrl).toList)
  | .login username _ => [username]
  | .createPost _ _ _ content files => content :: files.map fileUrl
  | .userPosts _ => []
  | .updateProfilePicture _ file => (file.map fileUrl).toList
  | .searchUsers query => query.toList
  | .getUser _ => []
  | .saveSection _ sectionId content => [sectionId, content]
  | .deletePost _ => []
  | .getSections _ => []

/-- The non-password strings stored in the database: every field of every
document except the `password` field of user documents. -/
def DB.publicStrings (db : DB) : List String :=
  db.users.flatMap (fun u =>
    u.email :: u.username ::
      (u.dob.toList ++ u.gender.toList ++ u.profilePicture.toList)) ++
  db.posts.flatMap (fun p => p.content :: p.imageUrl) ++
  db.sections.flatMap (fun s => [s.sectionId, s.content])

/-- Everything a response is allowed to be built from: fixed messages, the
request's non-secret strings, and the store's non-password strings.  Neither
any plaintext password nor any stored hash is an element, unless it
coincides with one of those public strings. -/
def safeStrings (req : Req) (db : DB) : List String :=
  messageConsts ++ req.publicStrings ++ db.publicStrings

/-- A `/save-section` request, for reasoning about request sequences. -/
structure SaveReq where
  userId : Nat
  sectionId : String
  content : String
deriving Repr, DecidableEq

/-- Apply a sequence of `/save-section` requests to the store, in order. -/
def applySaves (db : DB) : List SaveReq → DB
  | [] => db
  | r :: rs => applySaves (saveSection db r.userId r.sectionId r.content).1 rs

/-- The content most recently saved for `(u, k)` in a request sequence, if
any (later requests win). -/
def lastSaved (u : Nat) (k : String) : List SaveReq → Option String
  | [] => none
  | r :: rs =>
    match lastSaved u k rs with
    | some c => some c
    | none => if r.userId == u && r.sectionId == k then some r.content else none

/-- Two section documents do not collide on the `(userId, sectionId)` key
(the uniqueness the upsert maintains). -/
def sectionPairDistinct (a b : SectionDoc) : Prop :=
  ¬(a.userId = b.userId ∧ a.sectionId = b.sectionId)

/-- The specification's notion for the search endpoint, for comparison with
the code's `$regex` behaviour: the query occurs as a case-insensitive
contiguous substring of the username. -/
def SubstrI (pat s : String) : Prop :=
  (pat.data.map Char.toLower) <:+: (s.data.map Char.toLower)

instance (pat s : String) : Decidable (SubstrI pat s) :=
  inferInstanceAs (Decidable
    ((pat.data.map Char.toLower) <:+: (s.data.map Char.toLower)))

/-! ## Theorems -/

/-- In a user list with pairwise-distinct usernames, two members sharing a
username are the same user. -/
theorem eq_of_username_unique {l : List User}
    (h : l.Pairwise (fun a b => a.username ≠ b.username)) {u v : User}
    (hu : u ∈ l) (hv : v ∈ l) (huv : u.username = v.username) : u = v := by
  induction l with
  | nil => cases hu
  | cons a t ih =>
    rcases List.pairwise_cons.1 h with ⟨ha, ht⟩
    rcases List.mem_cons.1 hu with h1 | h1
    · rcases List.mem_cons.1 hv with h2 | h2
      · rw [h1, h2]
      · subst h1; exact absurd huv (ha v h2)
    · rcases List.mem_cons.1 hv with h2 | h2
      · subst h2; exact absurd huv.symm (ha u h1)
      · exact ih ht h1 h2

/-- C1. For every store with pairwise-distinct usernames and every login
request, `login` succeeds (HTTP 200) iff the username exists and the password
passes the bcrypt comparison against the stored hash; on success the body is
exactly `{ username, profilePicture, userId }` of that user; the stored hash
never occurs among the response's strings (as long as it does not coincide
with one of those public fields); and an unknown username and a failed
comparison produce the identical `400 Invalid username or password`
response. -/
theorem login_spec (compare : String → String → Bool) (db : DB)
    (username password : String)
    (huniq : db.users.Pairwise (fun a b => a.username ≠ b.username)) :
    ((login compare db username password).1 = 200 ↔
      ∃ u ∈ db.users, u.username = username ∧ compare password u.password = true)
    ∧ (∀ u, db.users.find? (fun v => v.username == username) = some u →
        (compare password u.password = true →
          login compare db username password =
            (200, Resp.loginOk u.username u.profilePicture u.id))
        ∧ (compare password u.password = false →
          login compare db username password =
            (400, Resp.msg "Invalid username or password"))
        ∧ (u.password ∉ "Invalid username or password" ::
              u.username :: u.profilePicture.toList →
          u.password ∉ (login compare db username password).2.strings))
    ∧ ((∀ u ∈ db.users, u.username ≠ username) →
        login compare db username password =
          (400, Resp.msg "Invalid username or password")) := by
  cases hf : db.users.find? (fun v => v.username == username) with
  | none =>
    have hnone := List.find?_eq_none.1 hf
    refine ⟨⟨fun h => by simp [login, hf] at h, ?_⟩, ?_, fun _ => by simp [login, hf]⟩
    · rintro ⟨u, hu, hun, -⟩
      exact absurd (by simp [hun]) (hnone u hu)
    · intro u hu
      simp at hu
  | some u =>
    have hmem := List.mem_of_find?_eq_some hf
    have hun : u.username = username := by
      have := List.find?_some hf
      simpa using this
    refine ⟨?_, ?_, fun hall => absurd hun (hall u hmem)⟩
    · constructor
      · intro h
        cases hc : compare password u.password with
        | true => exact ⟨u, hmem, hun, hc⟩
        | false => simp [login, hf, hc] at h
      · rintro ⟨v, hv, hvun, hvc⟩
        have : v = u := eq_of_username_unique huniq hv hmem (hvun.trans hun.symm)
        subst this
        simp [login, hf, hvc]
    · intro v hv
      have hvu : v = u := (Option.some.inj hv).symm
      subst hvu
      refine ⟨fun hc => by simp [login, hf, hc],
              fun hc => by simp [login, hf, hc], ?_⟩
      intro hnot hin
      cases hc : compare password v.password with
      | true =>
        simp [login, hf, hc, Resp.strings] at hin
        rcases hin with h1 | h2
        · exact hnot (by simp [h1])
        · exact hnot (by simp [h2])
      | false =>
        simp [login, hf, hc, Resp.strings] at hin
        exact hnot (by simp [hin])

/-- Witness for C1: a concrete store and comparison function on which
`login_spec` applies; the login of `alice` with the matching password
answers 200. -/
theorem login_spec_witness :
    (login (fun p h => h == "H" ++ p)
      ⟨[{ id := 1, email := "a@x.com", username := "alice", password := "Hpw",
          profilePicture := some "/uploads/p.png" }], [], []⟩
      "alice" "pw").1 = 200 :=
  (login_spec (fun p h => h == "H" ++ p)
      ⟨[{ id := 1, email := "a@x.com", username := "alice", password := "Hpw",
          profilePicture := some "/uploads/p.png" }], [], []⟩
      "alice" "pw" (by simp)).1.mpr
    ⟨{ id := 1, email := "a@x.com", username := "alice", password := "Hpw",
       profilePicture := some "/uploads/p.png" }, by simp, rfl, by decide⟩

/-- The duplicate check of `/register` in propositional form. -/
theorem register_conflict_iff (db : DB) (email username : String) :
    (db.users.any (fun u => u.email == email || u.username == username)) = true ↔
      ∃ u ∈ db.users, u.email = email ∨ u.username = username := by
  simp [List.any_eq_true]

/-- C2. If a user with the same email or the same username already
exists, `register` answers `400 Email or username already exists` and leaves
the store unchanged (no record persisted); otherwise it persists exactly the
new user (with the cost-10 hash) and answers 201 with only the constant
success message; and after a successful registration, a second registration
reusing the email or the username is the 400 conflict on the unchanged
store. -/
theorem register_spec (hash : String → String → Nat → String) (salt : String)
    (nextId : Nat) (db : DB) (email username password : String)
    (dob gender : Option String) (file : Option String) :
    ((∃ u ∈ db.users, u.email = email ∨ u.username = username) →
      register hash salt nextId db email username password dob gender file =
        (db, 400, Resp.msg "Email or username already exists"))
    ∧ ((¬ ∃ u ∈ db.users, u.email = email ∨ u.username = username) →
      register hash salt nextId db email username password dob gender file =
        ({ db with users := db.users ++
            [{ id := nextId, email := email, username := username,
               password := hash salt password 10, dob := dob, gender := gender,
               profilePicture := file.map fileUrl }] },
          201, Resp.msg "User registered successfully"))
    ∧ ((¬ ∃ u ∈ db.users, u.email = email ∨ u.username = username) →
      ∀ (salt2 : String) (nextId2 : Nat) (email2 username2 password2 : String)
        (dob2 gender2 : Option String) (file2 : Option String),
        email2 = email ∨ username2 = username →
        register hash salt2 nextId2
            (register hash salt nextId db email username password dob gender file).1
            email2 username2 password2 dob2 gender2 file2 =
          ((register hash salt nextId db email username password dob gender file).1,
            400, Resp.msg "Email or username already exists")) := by
  refine ⟨?_, ?_, ?_⟩
  · intro hex
    have hb : (db.users.any (fun u => u.email == email || u.username == username)) = true :=
      (register_conflict_iff db email username).2 hex
    simp [register, hb]
  · intro hnex
    have hb : (db.users.any (fun u => u.email == email || u.username == username)) = false := by
      rw [← Bool.not_eq_true]
      exact fun h => hnex ((register_conflict_iff db email username).1 h)
    simp [register, hb]
  · intro hnex salt2 nextId2 email2 username2 password2 dob2 gender2 file2 hdup
    have hb : (db.users.any (fun u => u.email == email || u.username == username)) = false := by
      rw [← Bool.not_eq_true]
      exact fun h => hnex ((register_conflict_iff db email username).1 h)
    have hstep :
        (register hash salt nextId db email username password dob gender file).1 =
          { db with users := db.users ++
            [{ id := nextId, email := email, username := username,
               password := hash salt password 10, dob := dob, gender := gender,
               profilePicture := file.map fileUrl }] } := by
      simp [register, hb]
    rw [hstep]
    have hex2 : ∃ u ∈ db.users ++
        [({ id := nextId, email := email, username := username,
            password := hash salt password 10, dob := dob, gender := gender,
            profilePicture := file.map fileUrl } : User)],
        u.email = email2 ∨ u.username = username2 := by
      refine ⟨_, List.mem_append_right _ (List.mem_singleton.2 rfl), ?_⟩
      rcases hdup with h | h
      · exact Or.inl h.symm
      · exact Or.inr h.symm
    have hb2 := (register_conflict_iff
      { db with users := db.users ++
          [{ id := nextId, email := email, username := username,
             password := hash salt password 10, dob := dob, gender := gender,
             profilePicture := file.map fileUrl }] } email2 username2).2 hex2
    simp [register, hb2]

/-- Witness for C2: on the empty store, registering `alice` succeeds and an
immediate second registration with the same username is the 400 conflict
leaving the one-user store as it was. -/
theorem register_spec_witness :
    register (fun s p c => s ++ p ++ toString c) "s2" 2
        (register (fun s p c => s ++ p ++ toString c) "s1" 1 DB.empty
          "a@x.com" "alice" "pw" none none none).1
        "b@x.com" "alice" "pw2" none none none =
      ((register (fun s p c => s ++ p ++ toString c) "s1" 1 DB.empty
          "a@x.com" "alice" "pw" none none none).1,
        400, Resp.msg "Email or username already exists") :=
  (register_spec (fun s p c => s ++ p ++ toString c) "s1" 1 DB.empty
      "a@x.com" "alice" "pw" none none none).2.2
    (by simp [DB.empty]) "s2" 2 "b@x.com" "alice" "pw2" none none none
    (Or.inr rfl)

/-- The `/save-section` handler always answers 200 with the resulting record
`⟨userId, sectionId, content⟩`, in both the update and the insert branch. -/
theorem saveSection_resp (db : DB) (u : Nat) (k c : String) :
    (saveSection db u k c).2 = (200, Resp.sectionOk ⟨u, k, c⟩) := by
  cases hf : db.sections.find? (fun s => s.userId == u && s.sectionId == k) with
  | none => simp [saveSection, hf]
  | some s =>
    have hpair : s.userId = u ∧ s.sectionId = k := by
      simpa using List.find?_some hf
    simp [saveSection, hf, hpair.1, hpair.2]

/-- Updating the first matching section rewrites the (at most one) matching
record to the new content and touches nothing else the filter sees. -/
theorem filter_updateFirstSection (u : Nat) (k c : String) :
    ∀ l : List SectionDoc,
      (l.filter (fun s => s.userId == u && s.sectionId == k)).length ≤ 1 →
      (updateFirstSection u k c l).filter
          (fun s => s.userId == u && s.sectionId == k) =
        (l.filter (fun s => s.userId == u && s.sectionId == k)).map
          (fun _ => ⟨u, k, c⟩) := by
  intro l
  induction l with
  | nil => intro _; rfl
  | cons s rest ih =>
    intro h
    by_cases hs : (s.userId == u && s.sectionId == k) = true
    · have hpair : s.userId = u ∧ s.sectionId = k := by simpa using hs
      have hrest : rest.filter (fun s => s.userId == u && s.sectionId == k) = [] := by
        simp [List.filter_cons, hs] at h
        rw [List.filter_eq_nil_iff]
        intro a ha
        simp only [Bool.and_eq_true, beq_iff_eq]
        rintro ⟨h1, h2⟩
        exact h a ha h1 h2
      simp [updateFirstSection, List.filter_cons, hs, hrest, hpair.1, hpair.2]
    · have hb : (s.userId == u && s.sectionId == k) = false :=
        Bool.eq_false_iff.2 hs
      simp only [List.filter_cons, hb, Bool.false_eq_true, if_false] at h
      rw [show updateFirstSection u k c (s :: rest) =
            s :: updateFirstSection u k c rest by simp [updateFirstSection, hb]]
      simp only [List.filter_cons, hb, Bool.false_eq_true, if_false]
      exact ih h

/-- After a save, the store holds exactly one record for the saved
`(userId, sectionId)` pair, carrying the saved content — provided it held at
most one before. -/
theorem saveSection_filter (db : DB) (u : Nat) (k c : String)
    (h : (db.sections.filter (fun s => s.userId == u && s.sectionId == k)).length ≤ 1) :
    (saveSection db u k c).1.sections.filter
        (fun s => s.userId == u && s.sectionId == k) = [⟨u, k, c⟩] := by
  cases hf : db.sections.find? (fun s => s.userId == u && s.sectionId == k) with
  | none =>
    have hempty : db.sections.filter (fun s => s.userId == u && s.sectionId == k) = [] := by
      rw [List.filter_eq_nil_iff]
      intro s hsmem
      exact fun hp => (List.find?_eq_none.1 hf s hsmem) hp
    simp [saveSection, hf, List.filter_append, hempty]
  | some s =>
    have hp := List.find?_some hf
    have hone : db.sections.filter (fun s => s.userId == u && s.sectionId == k) ≠ [] := by
      intro hnil
      have := List.filter_eq_nil_iff.1 hnil s (List.mem_of_find?_eq_some hf)
      exact this hp
    have hupd := filter_updateFirstSection u k c db.sections h
    rw [saveSection, hf]
    simp only []
    rw [hupd]
    rcases hl : db.sections.filter (fun s => s.userId == u && s.sectionId == k) with
      _ | ⟨a, t⟩
    · exact absurd hl hone
    · have ht : t = [] := by
        rw [hl] at h
        simp only [List.length_cons] at h
        exact List.length_eq_zero.1 (Nat.le_zero.1 (Nat.lt_succ_iff.1 h))
      rw [hl, ht]
      rfl

/-- C3. With at most one stored record for `(u, k)` (the reachable-state
uniqueness), `save-section(u, k, c1)` followed by `save-section(u, k, c2)`
leaves exactly one record for the pair, with content `c2`; each save answers
200 with the resulting record (`c1` then `c2`): upsert, last write wins. -/
theorem saveSection_spec (db : DB) (u : Nat) (k c1 c2 : String)
    (h : (db.sections.filter (fun s => s.userId == u && s.sectionId == k)).length ≤ 1) :
    (saveSection db u k c1).2 = (200, Resp.sectionOk ⟨u, k, c1⟩)
    ∧ (saveSection db u k c1).1.sections.filter
        (fun s => s.userId == u && s.sectionId == k) = [⟨u, k, c1⟩]
    ∧ (saveSection (saveSection db u k c1).1 u k c2).2 =
        (200, Resp.sectionOk ⟨u, k, c2⟩)
    ∧ (saveSection (saveSection db u k c1).1 u k c2).1.sections.filter
        (fun s => s.userId == u && s.sectionId == k) = [⟨u, k, c2⟩] := by
  have h1 := saveSection_filter db u k c1 h
  have h1len : ((saveSection db u k c1).1.sections.filter
      (fun s => s.userId == u && s.sectionId == k)).length ≤ 1 := by
    rw [h1]; exact le_refl 1
  exact ⟨saveSection_resp db u k c1, h1,
    saveSection_resp (saveSection db u k c1).1 u k c2,
    saveSection_filter (saveSection db u k c1).1 u k c2 h1len⟩

/-- Witness for C3: on the empty store, saving section `bio` as `hello` then
`world` for user 1 leaves exactly the single record `world` (the spec's §8
example). -/
theorem saveSection_spec_witness :
    (saveSection (saveSection DB.empty 1 "bio" "hello").1 1 "bio" "world").1.sections.filter
        (fun s => s.userId == 1 && s.sectionId == "bio") = [⟨1, "bio", "world"⟩] :=
  (saveSection_spec DB.empty 1 "bio" "hello" "world" (by simp [DB.empty])).2.2.2

/-- Deleting by id never adds posts: the result is a sublist. -/
theorem removeFirstPost_sublist (postId : Nat) :
    ∀ l : List Post, List.Sublist (removeFirstPost postId l) l := by
  intro l
  induction l with
  | nil => exact List.Sublist.refl []
  | cons q rest ih =>
    by_cases hq : (q.id == postId) = true
    · simp only [removeFirstPost, hq, if_true]
      exact List.sublist_cons_self q rest
    · have hb : (q.id == postId) = false := Bool.eq_false_iff.2 hq
      simp only [removeFirstPost, hb, Bool.false_eq_true, if_false]
      exact List.Sublist.cons₂ q ih

/-- A post whose id differs survives the deletion. -/
theorem mem_removeFirstPost_of_ne (postId : Nat) (p : Post) :
    ∀ l : List Post, p ∈ l → p.id ≠ postId → p ∈ removeFirstPost postId l := by
  intro l
  induction l with
  | nil => intro hp _; cases hp
  | cons q rest ih =>
    intro hp hne
    by_cases hq : (q.id == postId) = true
    · simp only [removeFirstPost, hq, if_true]
      rcases List.mem_cons.1 hp with h1 | h1
      · exact absurd (by simpa using hq) (h1 ▸ hne)
      · exact h1
    · have hb : (q.id == postId) = false := Bool.eq_false_iff.2 hq
      simp only [removeFirstPost, hb, Bool.false_eq_true, if_false]
      rcases List.mem_cons.1 hp with h1 | h1
      · exact h1 ▸ List.mem_cons_self q _
      · exact List.mem_cons_of_mem q (ih h1 hne)

/-- If at most one stored post carries the id, nothing with that id remains
after the deletion. -/
theorem removeFirstPost_no_match (postId : Nat) :
    ∀ l : List Post, (l.filter (fun p => p.id == postId)).length ≤ 1 →
      ∀ p ∈ removeFirstPost postId l, (p.id == postId) = false := by
  intro l
  induction l with
  | nil => intro _ p hp; cases hp
  | cons q rest ih =>
    intro h p hp
    by_cases hq : (q.id == postId) = true
    · simp only [removeFirstPost, hq, if_true] at hp
      simp [List.filter_cons, hq] at h
      exact Bool.eq_false_iff.2 (by simpa using h p hp)
    · have hb : (q.id == postId) = false := Bool.eq_false_iff.2 hq
      simp only [removeFirstPost, hb, Bool.false_eq_true, if_false] at hp
      simp only [List.filter_cons, hb, Bool.false_eq_true, if_false] at h
      rcases List.mem_cons.1 hp with h1 | h1
      · exact h1 ▸ hb
      · exact ih h p h1

/-- If nothing matches, deletion is the identity. -/
theorem removeFirstPost_of_no_match (postId : Nat) :
    ∀ l : List Post, (∀ p ∈ l, (p.id == postId) = false) →
      removeFirstPost postId l = l := by
  intro l
  induction l with
  | nil => intro _; rfl
  | cons q rest ih =>
    intro h
    have hb := h q (List.mem_cons_self q rest)
    simp only [removeFirstPost, hb, Bool.false_eq_true, if_false]
    rw [ih (fun p hp => h p (List.mem_cons_of_mem q hp))]

/-- C9. `delete-post/:postId` answers `200 Post deleted successfully` for
every `postId` — also when no post carries that id; provided the store holds
at most one post with the id (ids are unique in reachable states), deleting
twice answers 200 both times and leaves the store exactly as one deletion
does; no post with a different id is removed, and nothing is added. -/
theorem deletePost_spec (db : DB) (postId : Nat)
    (h : (db.posts.filter (fun p => p.id == postId)).length ≤ 1) :
    (deletePost db postId).2 = (200, Resp.msg "Post deleted successfully")
    ∧ (deletePost (deletePost db postId).1 postId).2 =
        (200, Resp.msg "Post deleted successfully")
    ∧ (deletePost (deletePost db postId).1 postId).1 = (deletePost db postId).1
    ∧ (∀ p ∈ db.posts, p.id ≠ postId → p ∈ (deletePost db postId).1.posts)
    ∧ (∀ p ∈ (deletePost db postId).1.posts, p ∈ db.posts) := by
  refine ⟨rfl, rfl, ?_, ?_, ?_⟩
  · show ({ (deletePost db postId).1 with
      posts := removeFirstPost postId (deletePost db postId).1.posts } : DB) = _
    have hno : ∀ p ∈ removeFirstPost postId db.posts, (p.id == postId) = false :=
      removeFirstPost_no_match postId db.posts h
    have : removeFirstPost postId (removeFirstPost postId db.posts) =
        removeFirstPost postId db.posts :=
      removeFirstPost_of_no_match postId _ hno
    simp [deletePost, this]
  · intro p hp hne
    exact mem_removeFirstPost_of_ne postId p db.posts hp hne
  · intro p hp
    exact (removeFirstPost_sublist postId db.posts).subset hp

/-- Witness for C9: with a single stored post (id 5), deleting id 9 — which
no post carries — still answers 200, and deleting twice equals deleting
once. -/
theorem deletePost_spec_witness :
    (deletePost ⟨[], [⟨5, 1, "hi", [], 0⟩], []⟩ 9).2 =
      (200, Resp.msg "Post deleted successfully") :=
  (deletePost_spec ⟨[], [⟨5, 1, "hi", [], 0⟩], []⟩ 9 (by simp)).1

/-- C10. When `update-profile-picture` is called for an existing user
with no file attached, the stored profile-picture reference is overwritten
with `null` (not left unchanged, not rejected): the plain variant answers
200; the git-sync variant performs the same mutation and then fails on
`req.file.path`, so the client receives 500 while the cleared picture
persists — the state changes despite the error. -/
theorem updateProfilePicture_noFile_spec (db : DB) (userId : Nat) (u : User)
    (hf : db.users.find? (fun v => v.id == userId) = some u) :
    updateProfilePicture db userId none =
      ({ db with users := setPicture db.users userId none }, 200,
        Resp.updatePicOk "Profile picture updated successfully" none)
    ∧ updateProfilePictureGit db userId none =
      ({ db with users := setPicture db.users userId none }, 500,
        Resp.msg "Internal server error")
    ∧ (updateProfilePictureGit db userId none).1 =
        (updateProfilePicture db userId none).1
    ∧ (∀ v ∈ (updateProfilePictureGit db userId none).1.users,
        v.id = userId → v.profilePicture = none) := by
  refine ⟨by simp [updateProfilePicture, hf], by simp [updateProfilePictureGit, hf],
    by simp [updateProfilePicture, updateProfilePictureGit, hf], ?_⟩
  intro v hv hvid
  simp only [updateProfilePictureGit, hf] at hv
  rcases List.mem_map.1 hv with ⟨w, hw, rfl⟩
  by_cases hwid : (w.id == userId) = true
  · simp [hwid]
  · have hb : (w.id == userId) = false := Bool.eq_false_iff.2 hwid
    simp only [hb, Bool.false_eq_true, if_false] at hvid ⊢
    exact absurd (by simpa using hvid) (by simpa using hwid)

/-- Witness for C10: a one-user store; the git-sync variant without a file
clears the picture yet responds 500. -/
theorem updateProfilePicture_noFile_spec_witness :
    updateProfilePictureGit ⟨[⟨1, "a@x.com", "alice", "H", none, none,
        some "/uploads/p.png"⟩], [], []⟩ 1 none =
      ({ (⟨[⟨1, "a@x.com", "alice", "H", none, none, some "/uploads/p.png"⟩],
          [], []⟩ : DB) with
        users := setPicture [⟨1, "a@x.com", "alice", "H", none, none,
          some "/uploads/p.png"⟩] 1 none }, 500, Resp.msg "Internal server error") :=
  (updateProfilePicture_noFile_spec
      ⟨[⟨1, "a@x.com", "alice", "H", none, none, some "/uploads/p.png"⟩], [], []⟩ 1
      ⟨1, "a@x.com", "alice", "H", none, none, some "/uploads/p.png"⟩
      (by simp)).2.1

/-- C5 (modelled from the spec — the `/generate-qr` route is absent from
`src/server.js`).  An absent or empty `url` is rejected with 400; a
non-empty URL yields 200 with a non-empty embedded-image data URL rendering
the fixed-size 200×200 QR symbol whose payload scans back to the literal
input string; the handler neither reads nor writes any store state. -/
theorem generateQr_spec (db : DB) (url : String) (h : url ≠ "") :
    generateQrH db none = (db, 400, none)
    ∧ generateQrH db (some "") = (db, 400, none)
    ∧ generateQrH db (some url) =
        (db, 200, some (qrDataUrl (qrRender url)))
    ∧ qrDataUrl (qrRender url) ≠ ""
    ∧ (qrRender url).width = 200 ∧ (qrRender url).height = 200
    ∧ (qrRender url).scan = url := by
  have hne : (url == "") = false := by
    rw [Bool.eq_false_iff]
    simpa using h
  refine ⟨rfl, rfl, by simp [generateQrH, generateQr, hne], ?_, rfl, rfl, rfl⟩
  intro hcontra
  have hlen := congrArg String.length hcontra
  rw [qrDataUrl, String.length_append] at hlen
  simp at hlen
  exact absurd hlen.1 (by decide)

/-- Witness for C5: the QR response for a concrete URL is the data URL whose
symbol scans back to the input. -/
theorem generateQr_spec_witness :
    generateQrH DB.empty (some "https://example.com") =
      (DB.empty, 200, some (qrDataUrl (qrRender "https://example.com")))
    ∧ (qrRender "https://example.com").scan = "https://example.com" :=
  ⟨(generateQr_spec DB.empty "https://example.com" (by decide)).2.2.1,
   (generateQr_spec DB.empty "https://example.com" (by decide)).2.2.2.2.2.2⟩

/-- C6. `user-posts/:userId` answers 200 with exactly the user's posts
(a permutation of the filtered store, each populated with the owning user's
username and profile picture), ordered by creation time descending: the
sequence of `createdAt` values is non-increasing, and a post created
strictly earlier than another appears strictly after it. -/
theorem userPosts_spec (db : DB) (uid : Nat) :
    ∃ views : List PostView,
      userPosts db uid = (200, Resp.posts views)
      ∧ views.Perm ((db.posts.filter (fun p => p.userId == uid)).map
          (populatePost db))
      ∧ views.Pairwise (fun a b => b.createdAt ≤ a.createdAt)
      ∧ (∀ (i j : Fin views.length),
          (views.get i).createdAt < (views.get j).createdAt → (j : Nat) < (i : Nat))
      ∧ (∀ v ∈ views, v.user = (db.users.find? (fun u => u.id == uid)).map
          (fun u => (u.id, u.username, u.profilePicture))) := by
  have hsorted := @List.sorted_mergeSort Post
    (fun a b => decide (b.createdAt ≤ a.createdAt))
    (fun a b c hab hbc => decide_eq_true
      (Nat.le_trans (of_decide_eq_true hbc) (of_decide_eq_true hab)))
    (fun a b => by
      rcases Nat.le_total b.createdAt a.createdAt with h | h <;> simp [h])
    (db.posts.filter (fun p => p.userId == uid))
  have hpw : (((db.posts.filter (fun p => p.userId == uid)).mergeSort
      (fun a b => decide (b.createdAt ≤ a.createdAt))).map
        (populatePost db)).Pairwise (fun a b => b.createdAt ≤ a.createdAt) := by
    rw [List.pairwise_map]
    exact hsorted.imp (fun h => of_decide_eq_true h)
  refine ⟨((db.posts.filter (fun p => p.userId == uid)).mergeSort
      (fun a b => decide (b.createdAt ≤ a.createdAt))).map (populatePost db),
    by rw [userPosts], ?_, hpw, ?_, ?_⟩
  · exact (List.mergeSort_perm _ _).map (populatePost db)
  · intro i j hlt
    have hget := List.pairwise_iff_get.1 hpw
    rcases Nat.lt_trichotomy (i : Nat) (j : Nat) with h | h | h
    · exact absurd (hget i j (Fin.lt_def.2 h)) (by omega)
    · have : i = j := Fin.ext h
      subst this
      exact absurd hlt (lt_irrefl _)
    · exact h
  · intro v hv
    rcases List.mem_map.1 hv with ⟨p, hp, rfl⟩
    have hpmem : p ∈ db.posts.filter (fun q => q.userId == uid) :=
      List.mem_mergeSort.1 hp
    have hpid : p.userId = uid := by
      have := List.of_mem_filter hpmem
      simpa using this
    simp [populatePost, hpid]

/-- Finding a section by the `(userId, sectionId)` pair equals filtering on
the user first and then finding the section identifier. -/
theorem findSec_filter (u : Nat) (k : String) :
    ∀ l : List SectionDoc,
      (l.filter (fun s => s.userId == u)).find? (fun s => s.sectionId == k) =
        l.find? (fun s => s.userId == u && s.sectionId == k) := by
  intro l
  induction l with
  | nil => rfl
  | cons s rest ih =>
    by_cases hu : (s.userId == u) = true
    · by_cases hk : (s.sectionId == k) = true
      · simp [List.filter_cons, List.find?_cons, hu, hk]
      · have hbk : (s.sectionId == k) = false := Bool.eq_false_iff.2 hk
        simp [List.filter_cons, List.find?_cons, hu, hbk, ih]
    · have hbu : (s.userId == u) = false := Bool.eq_false_iff.2 hu
      simp [List.filter_cons, List.find?_cons, hbu, ih]

/-- After overwriting the key in place, lookup of that key finds the new
value — given the key was present. -/
theorem find?_mapSet_self (k v : String) :
    ∀ m : List (String × String), m.any (fun kv => kv.1 == k) = true →
      (m.map (fun kv => if kv.1 == k then (k, v) else kv)).find?
          (fun kv => kv.1 == k) = some (k, v) := by
  intro m
  induction m with
  | nil => intro h; simp at h
  | cons kv rest ih =>
    intro h
    by_cases hk : (kv.1 == k) = true
    · rw [List.map_cons, if_pos hk, List.find?_cons, beq_self_eq_true]
    · have hb : (kv.1 == k) = false := Bool.eq_false_iff.2 hk
      have hrest : rest.any (fun kv => kv.1 == k) = true := by
        simpa [List.any_cons, hb] using h
      rw [List.map_cons, if_neg hk, List.find?_cons, hb]
      exact ih hrest

/-- Overwriting one key leaves lookups of any other key untouched. -/
theorem find?_mapSet_other (k v k' : String) (hne : k' ≠ k) :
    ∀ m : List (String × String),
      (m.map (fun kv => if kv.1 == k then (k, v) else kv)).find?
          (fun kv => kv.1 == k') = m.find? (fun kv => kv.1 == k') := by
  intro m
  induction m with
  | nil => rfl
  | cons kv rest ih =>
    by_cases hk : (kv.1 == k) = true
    · have hkeq : kv.1 = k := by simpa using hk
      have h1 : (k == k') = false := by
        rw [Bool.eq_false_iff]
        simpa using fun hkk => hne hkk.symm
      have h2 : (kv.1 == k') = false := by rw [hkeq]; exact h1
      rw [List.map_cons, if_pos hk, List.find?_cons, List.find?_cons, h1, h2]
      exact ih
    · have hb : (kv.1 == k) = false := Bool.eq_false_iff.2 hk
      rw [List.map_cons, if_neg hk, List.find?_cons, List.find?_cons]
      by_cases hk' : (kv.1 == k') = true
      · rw [hk']
      · have hb' : (kv.1 == k') = false := Bool.eq_false_iff.2 hk'
        rw [hb']
        exact ih

/-- Assignment `m[k] = v` makes `m[k]` read back `v`. -/
theorem lookupKey_setKey_self (m : List (String × String)) (k v : String) :
    lookupKey (setKey m k v) k = some v := by
  by_cases hany : (m.any (fun kv => kv.1 == k)) = true
  · rw [lookupKey, setKey, if_pos hany, find?_mapSet_self k v m hany]
    rfl
  · rw [lookupKey, setKey, if_neg hany, List.find?_append]
    have hnone : m.find? (fun kv => kv.1 == k) = none := by
      rw [List.find?_eq_none]
      intro x hx hpx
      exact absurd (List.any_eq_true.2 ⟨x, hx, hpx⟩) hany
    rw [hnone, List.find?_cons, beq_self_eq_true]
    rfl

/-- Assignment `m[k] = v` leaves every other key's read unchanged. -/
theorem lookupKey_setKey_other (m : List (String × String)) (k v k' : String)
    (hne : k' ≠ k) : lookupKey (setKey m k v) k' = lookupKey m k' := by
  by_cases hany : (m.any (fun kv => kv.1 == k)) = true
  · rw [lookupKey, setKey, if_pos hany, find?_mapSet_other k v k' hne m]
    rfl
  · rw [lookupKey, setKey, if_neg hany, List.find?_append]
    have h1 : (k == k') = false := by
      rw [Bool.eq_false_iff]
      simpa using fun hkk => hne hkk.symm
    have hsingle : List.find? (fun kv => kv.1 == k') [(k, v)] = none := by
      rw [List.find?_cons, h1]
      rfl
    rw [hsingle, Option.or_none]
    rfl

/-- Reading the object built by the `reduce` fold: on a section list with
pairwise-distinct identifiers, `obj[k]` is the content of the (unique)
section named `k`, or falls through to the initial object. -/
theorem lookupKey_foldl_setKey (k : String) :
    ∀ (l : List SectionDoc) (init : List (String × String)),
      l.Pairwise (fun a b => a.sectionId ≠ b.sectionId) →
      lookupKey (l.foldl (fun acc s => setKey acc s.sectionId s.content) init) k =
        (match l.find? (fun s => s.sectionId == k) with
          | some s => some s.content
          | none => lookupKey init k) := by
  intro l
  induction l with
  | nil => intro init _; rfl
  | cons s rest ih =>
    intro init hpw
    rcases List.pairwise_cons.1 hpw with ⟨hhead, hrest⟩
    rw [List.foldl_cons, ih (setKey init s.sectionId s.content) hrest]
    by_cases hk : (s.sectionId == k) = true
    · have hkeq : s.sectionId = k := by simpa using hk
      have hnone : rest.find? (fun t => t.sectionId == k) = none := by
        rw [List.find?_eq_none]
        intro t ht hpt
        have htk : t.sectionId = k := by simpa using hpt
        exact hhead t ht (hkeq.trans htk.symm)
      rw [hnone]
      simp [List.find?_cons, hk, hkeq, lookupKey_setKey_self]
    · have hb : (s.sectionId == k) = false := Bool.eq_false_iff.2 hk
      have hkne : k ≠ s.sectionId := by
        simpa using fun hkk => (Bool.eq_false_iff.1 hb) (by simp [hkk])
      cases hrf : rest.find? (fun t => t.sectionId == k) with
      | some t => simp [List.find?_cons, hb, hrf]
      | none =>
        simp [List.find?_cons, hb, hrf,
          lookupKey_setKey_other init s.sectionId s.content k hkne]

/-- Every document after an in-place update keeps some original document's
key fields. -/
theorem updateFirstSection_key_mem (u : Nat) (k c : String) :
    ∀ l : List SectionDoc, ∀ t ∈ updateFirstSection u k c l,
      ∃ t' ∈ l, t.userId = t'.userId ∧ t.sectionId = t'.sectionId := by
  intro l
  induction l with
  | nil => intro t ht; cases ht
  | cons s rest ih =>
    intro t ht
    by_cases hs : (s.userId == u && s.sectionId == k) = true
    · simp only [updateFirstSection, hs, if_true] at ht
      rcases List.mem_cons.1 ht with h1 | h1
      · exact ⟨s, List.mem_cons_self s rest, by rw [h1]; exact ⟨rfl, rfl⟩⟩
      · exact ⟨t, List.mem_cons_of_mem s h1, rfl, rfl⟩
    · have hb : (s.userId == u && s.sectionId == k) = false := Bool.eq_false_iff.2 hs
      simp only [updateFirstSection, hb, Bool.false_eq_true, if_false] at ht
      rcases List.mem_cons.1 ht with h1 | h1
      · exact ⟨s, List.mem_cons_self s rest, by rw [h1]; exact ⟨rfl, rfl⟩⟩
      · rcases ih t h1 with ⟨t', ht', hft⟩
        exact ⟨t', List.mem_cons_of_mem s ht', hft⟩

/-- The in-place update preserves key-pair uniqueness. -/
theorem pairwise_updateFirstSection (u : Nat) (k c : String) :
    ∀ l : List SectionDoc, l.Pairwise sectionPairDistinct →
      (updateFirstSection u k c l).Pairwise sectionPairDistinct := by
  intro l
  induction l with
  | nil => intro _; exact List.Pairwise.nil
  | cons s rest ih =>
    intro h
    rcases List.pairwise_cons.1 h with ⟨hhead, hrest⟩
    by_cases hs : (s.userId == u && s.sectionId == k) = true
    · simp only [updateFirstSection, hs, if_true]
      exact List.pairwise_cons.2 ⟨fun t ht => hhead t ht, hrest⟩
    · have hb : (s.userId == u && s.sectionId == k) = false := Bool.eq_false_iff.2 hs
      simp only [updateFirstSection, hb, Bool.false_eq_true, if_false]
      refine List.pairwise_cons.2 ⟨?_, ih hrest⟩
      intro t ht
      rcases updateFirstSection_key_mem u k c rest t ht with ⟨t', ht', h1, h2⟩
      intro hcol
      exact hhead t' ht' ⟨hcol.1.trans h1, hcol.2.trans h2⟩

/-- The upsert preserves key-pair uniqueness of the section store. -/
theorem saveSection_pairwise (db : DB) (u : Nat) (k c : String)
    (h : db.sections.Pairwise sectionPairDistinct) :
    (saveSection db u k c).1.sections.Pairwise sectionPairDistinct := by
  cases hf : db.sections.find? (fun s => s.userId == u && s.sectionId == k) with
  | some s =>
    simp only [saveSection, hf]
    exact pairwise_updateFirstSection u k c db.sections h
  | none =>
    simp only [saveSection, hf]
    rw [List.pairwise_append]
    refine ⟨h, List.pairwise_singleton _ _, ?_⟩
    intro a ha b hb
    have hbv : b = ⟨u, k, c⟩ := List.mem_singleton.1 hb
    subst hbv
    intro hcol
    have hpa : (a.userId == u && a.sectionId == k) = true := by
      simp [hcol.1, hcol.2]
    exact (List.find?_eq_none.1 hf a ha) hpa

/-- Key-pair uniqueness holds in every state reached by saves from the
empty store. -/
theorem applySaves_pairwise :
    ∀ (tr : List SaveReq) (db : DB),
      db.sections.Pairwise sectionPairDistinct →
      (applySaves db tr).sections.Pairwise sectionPairDistinct := by
  intro tr
  induction tr with
  | nil => intro db h; exact h
  | cons r rs ih =>
    intro db h
    exact ih _ (saveSection_pairwise db r.userId r.sectionId r.content h)

/-- Updating the matched record makes the `(u, k)` search find the new
content — given a match existed. -/
theorem find?_updateFirstSection_same (u : Nat) (k c : String) :
    ∀ l : List SectionDoc,
      (l.find? (fun s => s.userId == u && s.sectionId == k)).isSome = true →
      (updateFirstSection u k c l).find?
          (fun s => s.userId == u && s.sectionId == k) = some ⟨u, k, c⟩ := by
  intro l
  induction l with
  | nil => intro h; simp at h
  | cons s rest ih =>
    intro h
    by_cases hs : (s.userId == u && s.sectionId == k) = true
    · have hpair : s.userId = u ∧ s.sectionId = k := by simpa using hs
      simp only [updateFirstSection, hs, if_true]
      rw [List.find?_cons]
      rw [show (({ s with content := c } : SectionDoc).userId == u &&
          ({ s with content := c } : SectionDoc).sectionId == k) = true from hs]
      simp [hpair.1, hpair.2]
    · have hb : (s.userId == u && s.sectionId == k) = false := Bool.eq_false_iff.2 hs
      rw [List.find?_cons, hb] at h
      simp only [updateFirstSection, hb, Bool.false_eq_true, if_false]
      rw [List.find?_cons, hb]
      exact ih h

/-- Updating the `(u', k')` record does not affect the search for a
different pair `(u, k)`. -/
theorem find?_updateFirstSection_other (u' : Nat) (k' c : String) (u : Nat)
    (k : String) (hne : (u' == u && k' == k) = false) :
    ∀ l : List SectionDoc,
      (updateFirstSection u' k' c l).find?
          (fun s => s.userId == u && s.sectionId == k) =
        l.find? (fun s => s.userId == u && s.sectionId == k) := by
  intro l
  induction l with
  | nil => rfl
  | cons s rest ih =>
    by_cases hs : (s.userId == u' && s.sectionId == k') = true
    · have hpair : s.userId = u' ∧ s.sectionId = k' := by simpa using hs
      have hsp : (s.userId == u && s.sectionId == k) = false := by
        rw [hpair.1, hpair.2]; exact hne
      simp only [updateFirstSection, hs, if_true]
      rw [List.find?_cons, List.find?_cons]
      rw [show (({ s with content := c } : SectionDoc).userId == u &&
          ({ s with content := c } : SectionDoc).sectionId == k) = false from hsp]
    · have hb : (s.userId == u' && s.sectionId == k') = false := Bool.eq_false_iff.2 hs
      simp only [updateFirstSection, hb, Bool.false_eq_true, if_false]
      rw [List.find?_cons, List.find?_cons]
      by_cases hsp : (s.userId == u && s.sectionId == k) = true
      · rw [hsp]
      · rw [Bool.eq_false_iff.2 hsp]
        exact ih

/-- After an upsert for `(u, k)`, the `(u, k)` search finds exactly the
saved record. -/
theorem findSec_saveSection_same (db : DB) (u : Nat) (k c : String) :
    (saveSection db u k c).1.sections.find?
        (fun s => s.userId == u && s.sectionId == k) = some ⟨u, k, c⟩ := by
  cases hf : db.sections.find? (fun s => s.userId == u && s.sectionId == k) with
  | none =>
    simp only [saveSection, hf]
    rw [List.find?_append, hf]
    rw [List.find?_cons]
    simp
  | some s =>
    simp only [saveSection, hf]
    exact find?_updateFirstSection_same u k c db.sections (by rw [hf]; rfl)

/-- An upsert for a different pair leaves the `(u, k)` search unchanged. -/
theorem findSec_saveSection_other (db : DB) (u' : Nat) (k' c : String)
    (u : Nat) (k : String) (hne : (u' == u && k' == k) = false) :
    (saveSection db u' k' c).1.sections.find?
        (fun s => s.userId == u && s.sectionId == k) =
      db.sections.find? (fun s => s.userId == u && s.sectionId == k) := by
  cases hf : db.sections.find? (fun s => s.userId == u' && s.sectionId == k') with
  | some s =>
    simp only [saveSection, hf]
    exact find?_updateFirstSection_other u' k' c u k hne db.sections
  | none =>
    simp only [saveSection, hf]
    rw [List.find?_append]
    have hnew : List.find? (fun s => s.userId == u && s.sectionId == k)
        [(⟨u', k', c⟩ : SectionDoc)] = none := by
      rw [List.find?_cons]
      rw [show ((⟨u', k', c⟩ : SectionDoc).userId == u &&
          (⟨u', k', c⟩ : SectionDoc).sectionId == k) = false from hne]
      rfl
    rw [hnew, Option.or_none]

/-- Along any save sequence, the `(u, k)` search finds the record carrying
the most recently saved content, falling back to the initial store. -/
theorem findSec_applySaves (u : Nat) (k : String) :
    ∀ (tr : List SaveReq) (db : DB),
      (applySaves db tr).sections.find?
          (fun s => s.userId == u && s.sectionId == k) =
        (match lastSaved u k tr with
          | some c => some ⟨u, k, c⟩
          | none => db.sections.find?
              (fun s => s.userId == u && s.sectionId == k)) := by
  intro tr
  induction tr with
  | nil => intro db; rfl
  | cons r rs ih =>
    intro db
    rw [show applySaves db (r :: rs) =
        applySaves (saveSection db r.userId r.sectionId r.content).1 rs from rfl]
    rw [ih]
    cases hls : lastSaved u k rs with
    | some c =>
      rw [show lastSaved u k (r :: rs) =
          (match lastSaved u k rs with
            | some c => some c
            | none => if r.userId == u && r.sectionId == k then some r.content
                else none) from rfl, hls]
    | none =>
      rw [show lastSaved u k (r :: rs) =
          (match lastSaved u k rs with
            | some c => some c
            | none => if r.userId == u && r.sectionId == k then some r.content
                else none) from rfl, hls]
      by_cases hp : (r.userId == u && r.sectionId == k) = true
      · have hpair : r.userId = u ∧ r.sectionId = k := by simpa using hp
        rw [if_pos hp]
        rw [hpair.1, hpair.2]
        rw [findSec_saveSection_same db u k r.content]
      · rw [if_neg hp]
        rw [findSec_saveSection_other db r.userId r.sectionId r.content u k
          (Bool.eq_false_iff.2 hp)]

/-- No save in the sequence means no surviving write for the pair. -/
theorem lastSaved_eq_none_iff (u : Nat) (k : String) :
    ∀ tr : List SaveReq, lastSaved u k tr = none ↔
      ∀ r ∈ tr, ¬(r.userId = u ∧ r.sectionId = k) := by
  intro tr
  induction tr with
  | nil => simp [lastSaved]
  | cons r rs ih =>
    cases hls : lastSaved u k rs with
    | some c =>
      constructor
      · intro h
        rw [show lastSaved u k (r :: rs) =
            (match lastSaved u k rs with
              | some c => some c
              | none => if r.userId == u && r.sectionId == k then some r.content
                  else none) from rfl, hls] at h
        cases h
      · intro h
        have := ih.2 (fun r' hr' => h r' (List.mem_cons_of_mem r hr'))
        rw [this] at hls
        cases hls
    | none =>
      rw [show lastSaved u k (r :: rs) =
          (match lastSaved u k rs with
            | some c => some c
            | none => if r.userId == u && r.sectionId == k then some r.content
                else none) from rfl, hls]
      constructor
      · intro h r' hr'
        rcases List.mem_cons.1 hr' with h1 | h1
        · subst h1
          intro hcol
          rw [if_pos (by simp [hcol.1, hcol.2])] at h
          cases h
        · exact ih.1 hls r' h1
      · intro h
        rw [if_neg]
        intro hp
        exact h r (List.mem_cons_self r rs) (by simpa using hp)

/-- A save sequence touching only other users leaves no section owned by
`u` in the store. -/
theorem applySaves_no_user (u : Nat) :
    ∀ (tr : List SaveReq) (db : DB),
      (∀ s ∈ db.sections, s.userId ≠ u) → (∀ r ∈ tr, r.userId ≠ u) →
      ∀ s ∈ (applySaves db tr).sections, s.userId ≠ u := by
  intro tr
  induction tr with
  | nil => intro db hdb _ s hs; exact hdb s hs
  | cons r rs ih =>
    intro db hdb htr
    refine ih _ ?_ (fun r' hr' => htr r' (List.mem_cons_of_mem r hr'))
    intro s hs
    cases hf : db.sections.find?
        (fun t => t.userId == r.userId && t.sectionId == r.sectionId) with
    | some t =>
      simp only [saveSection, hf] at hs
      rcases updateFirstSection_key_mem r.userId r.sectionId r.content
        db.sections s hs with ⟨s', hs', h1, _⟩
      rw [h1]
      exact hdb s' hs'
    | none =>
      simp only [saveSection, hf] at hs
      rcases List.mem_append.1 hs with h1 | h1
      · exact hdb s h1
      · have : s = ⟨r.userId, r.sectionId, r.content⟩ := List.mem_singleton.1 h1
        rw [this]
        exact htr r (List.mem_cons_self r rs)

/-- C7. For every user and every sequence of `/save-section` requests
applied to the empty store, `get-sections/:userId` answers 200 with an
object whose read at any key equals the most recently saved content for
that `(user, key)` pair; its key set is exactly the identifiers ever saved
for the user, and it is the empty object when the user never saved. -/
theorem getSections_spec (tr : List SaveReq) (u : Nat) :
    ∃ m : List (String × String),
      getSections (applySaves DB.empty tr) u = (200, Resp.sectionsOk m)
      ∧ (∀ k, lookupKey m k = lastSaved u k tr)
      ∧ (∀ k, lookupKey m k ≠ none ↔ ∃ r ∈ tr, r.userId = u ∧ r.sectionId = k)
      ∧ ((∀ r ∈ tr, r.userId ≠ u) → m = []) := by
  have hinv : (applySaves DB.empty tr).sections.Pairwise sectionPairDistinct :=
    applySaves_pairwise tr DB.empty (by simp [DB.empty])
  have hflt : ((applySaves DB.empty tr).sections.filter
      (fun s => s.userId == u)).Pairwise (fun a b => a.sectionId ≠ b.sectionId) := by
    have hsub : ((applySaves DB.empty tr).sections.filter
        (fun s => s.userId == u)).Pairwise sectionPairDistinct :=
      List.Pairwise.sublist (List.filter_sublist _) hinv
    refine hsub.imp_of_mem ?_
    intro a b ha hb hR hsec
    have hau : a.userId = u := by simpa using List.of_mem_filter ha
    have hbu : b.userId = u := by simpa using List.of_mem_filter hb
    exact hR ⟨hau.trans hbu.symm, hsec⟩
  have hmain : ∀ k, lookupKey (((applySaves DB.empty tr).sections.filter
      (fun s => s.userId == u)).foldl
        (fun acc s => setKey acc s.sectionId s.content) []) k = lastSaved u k tr := by
    intro k
    rw [lookupKey_foldl_setKey k _ [] hflt, findSec_filter u k,
      findSec_applySaves u k tr DB.empty]
    cases hls : lastSaved u k tr with
    | some c => rfl
    | none => rfl
  refine ⟨_, rfl, hmain, ?_, ?_⟩
  · intro k
    rw [hmain k, Ne, lastSaved_eq_none_iff u k tr]
    push_neg
    constructor
    · rintro ⟨r, hr, h1, h2⟩
      exact ⟨r, hr, h1, h2⟩
    · rintro ⟨r, hr, h1, h2⟩
      exact ⟨r, hr, h1, h2⟩
  · intro hnone
    have hfe : (applySaves DB.empty tr).sections.filter
        (fun s => s.userId == u) = [] := by
      rw [List.filter_eq_nil_iff]
      intro s hs hp
      exact applySaves_no_user u tr DB.empty (by simp [DB.empty]) hnone s hs
        (by simpa using hp)
    rw [hfe]
    rfl

/-- On a pattern free of the `.` wildcard, an anchored regex match is a
case-insensitive prefix test. -/
theorem regexMatchHere_dotfree :
    ∀ (pat s : List Char), '.' ∉ pat →
      (regexMatchHere pat s = true ↔
        (pat.map Char.toLower) <+: (s.map Char.toLower)) := by
  intro pat
  induction pat with
  | nil =>
    intro s _
    simp [regexMatchHere]
  | cons p ps ih =>
    intro s hdot
    have hp : p ≠ '.' := fun h => hdot (h ▸ List.mem_cons_self p ps)
    have hps : '.' ∉ ps := fun h => hdot (List.mem_cons_of_mem p h)
    cases s with
    | nil =>
      constructor
      · intro h; cases h
      · intro h
        exact absurd (List.prefix_nil.1 h) (by simp)
    | cons c cs =>
      rw [show regexMatchHere (p :: ps) (c :: cs) =
          ((p == '.' || p.toLower == c.toLower) && regexMatchHere ps cs) from rfl]
      have hpd : (p == '.') = false := by
        rw [Bool.eq_false_iff]
        simpa using hp
      rw [hpd]
      simp only [Bool.false_or, Bool.and_eq_true, beq_iff_eq]
      rw [List.map_cons, List.map_cons, List.cons_prefix_cons]
      exact and_congr Iff.rfl (ih cs hps)

/-- On a pattern free of the `.` wildcard, the unanchored regex search is
exactly the case-insensitive substring test. -/
theorem regexSearch_dotfree :
    ∀ (pat s : List Char), '.' ∉ pat →
      (regexSearch pat s = true ↔
        (pat.map Char.toLower) <:+: (s.map Char.toLower)) := by
  intro pat s hdot
  induction s with
  | nil =>
    rw [show regexSearch pat [] = regexMatchHere pat [] from rfl]
    rw [regexMatchHere_dotfree pat [] hdot]
    simp only [List.map_nil]
    rw [List.prefix_nil, List.infix_nil]
  | cons c cs ih =>
    rw [show regexSearch pat (c :: cs) =
        (regexMatchHere pat (c :: cs) || regexSearch pat cs) from rfl]
    rw [Bool.or_eq_true, regexMatchHere_dotfree pat (c :: cs) hdot, ih]
    rw [List.map_cons, List.infix_cons_iff]

/-- C8 (amended). `search-users` rejects a missing or empty query with
400; a non-empty query is passed raw to `$regex` with option `i`, i.e.
interpreted as a case-insensitive regular expression matched anywhere in
the stored usernames (not as a literal substring), and each hit is returned
as its user identifier and username (no other fields).  For every query
containing no PCRE metacharacter at all (`regexMetachars`: none of
`. * + ? [ ] ( ) ^ $ | \`, nor a brace) — the only queries on which the
embedded fragment is faithful to the full engine — this coincides with the
claim's case-insensitive substring match: the result is exactly the users
whose username contains the query as a case-insensitive substring. -/
theorem searchUsers_spec (db : DB) (q : String) (hq : q ≠ "")
    (hmeta : ∀ c ∈ q.data, c ∉ regexMetachars) :
    searchUsers db none = (400, Resp.msg "Query parameter is required")
    ∧ searchUsers db (some "") = (400, Resp.msg "Query parameter is required")
    ∧ searchUsers db (some q) = (200, Resp.searchOk
        ((db.users.filter (fun u => decide (SubstrI q u.username))).map
          (fun u => (u.id, u.username)))) := by
  have hdot : '.' ∉ q.data := fun h => hmeta '.' h (by decide)
  have hqb : (q == "") = false := by
    rw [Bool.eq_false_iff]
    simpa using hq
  refine ⟨rfl, rfl, ?_⟩
  rw [searchUsers]
  rw [if_neg (by simp [hqb])]
  have hfeq : db.users.filter (fun u => regexSearch q.data u.username.data) =
      db.users.filter (fun u => decide (SubstrI q u.username)) := by
    apply List.filter_congr
    intro u _
    by_cases hm : regexSearch q.data u.username.data = true
    · rw [hm]
      exact (decide_eq_true (show SubstrI q u.username from
        (regexSearch_dotfree q.data u.username.data hdot).1 hm)).symm
    · have hb : regexSearch q.data u.username.data = false := Bool.eq_false_iff.2 hm
      rw [hb]
      exact (decide_eq_false (show ¬ SubstrI q u.username from
        fun hin => hm ((regexSearch_dotfree q.data u.username.data hdot).2 hin))).symm
  rw [hfeq]

/-- Witness for C8: the metacharacter-free query `AL` over a store holding
`alice` and `bob` matches exactly the case-insensitive substring
semantics. -/
theorem searchUsers_spec_witness :
    searchUsers ⟨[⟨1, "a@x.com", "alice", "H1", none, none, none⟩,
        ⟨2, "b@x.com", "bob", "H2", none, none, none⟩], [], []⟩ (some "AL") =
      (200, Resp.searchOk
        (((⟨[⟨1, "a@x.com", "alice", "H1", none, none, none⟩,
            ⟨2, "b@x.com", "bob", "H2", none, none, none⟩], [], []⟩ : DB).users.filter
          (fun u => decide (SubstrI "AL" u.username))).map
            (fun u => (u.id, u.username)))) :=
  (searchUsers_spec ⟨[⟨1, "a@x.com", "alice", "H1", none, none, none⟩,
      ⟨2, "b@x.com", "bob", "H2", none, none, none⟩], [], []⟩ "AL"
    (by decide) (by decide)).2.2

/-- Counterexample to C8 as stated: with `bob` stored, the query `.` (a
regex wildcard) returns `bob` although `.` is not a case-insensitive
substring of `bob` — the code does regex matching, not literal substring
matching. -/
theorem searchUsers_counterexample :
    (searchUsers ⟨[⟨1, "b@x.com", "bob", "H", none, none, none⟩], [], []⟩
        (some ".")).2 = Resp.searchOk [(1, "bob")]
    ∧ ¬ SubstrI "." "bob" := by
  constructor
  · rfl
  · decide

/-- Every handler preserves "each stored password is a cost-10 hash". -/
theorem handle_passwords_hashed (hash : String → String → Nat → String)
    (compare : String → String → Bool) (req : Req) (db : DB)
    (h : ∀ u ∈ db.users, ∃ s p, u.password = hash s p 10) :
    ∀ u ∈ (handle hash compare req db).1.users,
      ∃ s p, u.password = hash s p 10 := by
  cases req with
  | register salt nextId email username password dob gender file =>
    intro u hu
    by_cases hex : (db.users.any
        (fun v => v.email == email || v.username == username)) = true
    · have hst : (handle hash compare
          (.register salt nextId email username password dob gender file) db).1 = db := by
        simp [handle, register, hex]
      rw [hst] at hu
      exact h u hu
    · have hst : (handle hash compare
          (.register salt nextId email username password dob gender file) db).1.users =
          db.users ++ [⟨nextId, email, username, hash salt password 10, dob,
            gender, file.map fileUrl⟩] := by
        simp [handle, register, hex]
      rw [hst] at hu
      rcases List.mem_append.1 hu with h1 | h1
      · exact h u h1
      · rw [List.mem_singleton.1 h1]
        exact ⟨salt, password, rfl⟩
  | login username password => intro u hu; exact h u hu
  | createPost nextId now userId content files => intro u hu; exact h u hu
  | userPosts userId => intro u hu; exact h u hu
  | updateProfilePicture userId file =>
    intro u hu
    cases hf : db.users.find? (fun v => v.id == userId) with
    | none =>
      have hst : (handle hash compare (.updateProfilePicture userId file) db).1 = db := by
        simp [handle, updateProfilePicture, hf]
      rw [hst] at hu
      exact h u hu
    | some w =>
      have hst : (handle hash compare (.updateProfilePicture userId file) db).1.users =
          setPicture db.users userId (file.map fileUrl) := by
        simp [handle, updateProfilePicture, hf]
      rw [hst] at hu
      rcases List.mem_map.1 hu with ⟨w', hw', rfl⟩
      by_cases hwid : (w'.id == userId) = true
      · simp only [hwid, if_true]
        exact h w' hw'
      · simp only [Bool.eq_false_iff.2 hwid, Bool.false_eq_true, if_false]
        exact h w' hw'
  | searchUsers query => intro u hu; exact h u hu
  | getUser userId => intro u hu; exact h u hu
  | saveSection userId sectionId content =>
    intro u hu
    cases hf : db.sections.find?
        (fun s => s.userId == userId && s.sectionId == sectionId) with
    | none =>
      have hst : (handle hash compare (.saveSection userId sectionId content) db).1.users =
          db.users := by
        simp [handle, saveSection, hf]
      rw [hst] at hu
      exact h u hu
    | some s =>
      have hst : (handle hash compare (.saveSection userId sectionId content) db).1.users =
          db.users := by
        simp [handle, saveSection, hf]
      rw [hst] at hu
      exact h u hu
  | deletePost postId => intro u hu; exact h u hu
  | getSections userId => intro u hu; exact h u hu

/-- Along any request sequence, every stored password stays a cost-10
hash. -/
theorem run_passwords_hashed (hash : String → String → Nat → String)
    (compare : String → String → Bool) :
    ∀ (reqs : List Req) (db : DB),
      (∀ u ∈ db.users, ∃ s p, u.password = hash s p 10) →
      ∀ u ∈ (run hash compare db reqs).users, ∃ s p, u.password = hash s p 10 := by
  intro reqs
  induction reqs with
  | nil => intro db h; exact h
  | cons req rs ih =>
    intro db h
    exact ih _ (handle_passwords_hashed hash compare req db h)

/-- Message constants are safe response sources. -/
theorem mem_safe_msg {x : String} (req : Req) (db : DB)
    (h : x ∈ messageConsts) : x ∈ safeStrings req db :=
  List.mem_append_left _ (List.mem_append_left _ h)

/-- Request public strings are safe response sources. -/
theorem mem_safe_req {x : String} (req : Req) (db : DB)
    (h : x ∈ req.publicStrings) : x ∈ safeStrings req db :=
  List.mem_append_left _ (List.mem_append_right _ h)

/-- Store public strings are safe response sources. -/
theorem mem_safe_db {x : String} (req : Req) (db : DB)
    (h : x ∈ db.publicStrings) : x ∈ safeStrings req db :=
  List.mem_append_right _ h

/-- A stored username is a public store string. -/
theorem username_mem_db (db : DB) (u : User) (hu : u ∈ db.users) :
    u.username ∈ db.publicStrings :=
  List.mem_append_left _ (List.mem_append_left _
    (List.mem_flatMap.2 ⟨u, hu, List.mem_cons_of_mem _ (List.mem_cons_self _ _)⟩))

/-- A stored profile-picture reference is a public store string. -/
theorem profilePicture_mem_db (db : DB) (u : User) (hu : u ∈ db.users)
    (pp : String) (hpp : u.profilePicture = some pp) :
    pp ∈ db.publicStrings := by
  refine List.mem_append_left _ (List.mem_append_left _
    (List.mem_flatMap.2 ⟨u, hu, ?_⟩))
  refine List.mem_cons_of_mem _ (List.mem_cons_of_mem _ ?_)
  refine List.mem_append_right _ ?_
  simp [hpp]

/-- A stored post's content is a public store string. -/
theorem post_content_mem_db (db : DB) (p : Post) (hp : p ∈ db.posts) :
    p.content ∈ db.publicStrings :=
  List.mem_append_left _ (List.mem_append_right _
    (List.mem_flatMap.2 ⟨p, hp, List.mem_cons_self _ _⟩))

/-- A stored post's image URL is a public store string. -/
theorem post_image_mem_db (db : DB) (p : Post) (hp : p ∈ db.posts)
    (x : String) (hx : x ∈ p.imageUrl) : x ∈ db.publicStrings :=
  List.mem_append_left _ (List.mem_append_right _
    (List.mem_flatMap.2 ⟨p, hp, List.mem_cons_of_mem _ hx⟩))

/-- A stored section's identifier and content are public store strings. -/
theorem section_strings_mem_db (db : DB) (s : SectionDoc)
    (hs : s ∈ db.sections) (x : String)
    (hx : x = s.sectionId ∨ x = s.content) : x ∈ db.publicStrings := by
  refine List.mem_append_right _ (List.mem_flatMap.2 ⟨s, hs, ?_⟩)
  rcases hx with h | h <;> simp [h]

/-- Every entry of `m[k] = v` is the new pair or an old entry. -/
theorem mem_setKey (m : List (String × String)) (k v : String)
    (kv : String × String) (h : kv ∈ setKey m k v) :
    kv = (k, v) ∨ kv ∈ m := by
  rw [setKey] at h
  by_cases hany : (m.any (fun kv => kv.1 == k)) = true
  · rw [if_pos hany] at h
    rcases List.mem_map.1 h with ⟨kv', hkv', rfl⟩
    by_cases hk : (kv'.1 == k) = true
    · left; simp [hk]
    · right
      simp only [Bool.eq_false_iff.2 hk, Bool.false_eq_true, if_false]
      exact hkv'
  · rw [if_neg hany] at h
    rcases List.mem_append.1 h with h1 | h1
    · right; exact h1
    · left; exact List.mem_singleton.1 h1

/-- Every entry of the object built by the `reduce` fold comes from the
initial object or from some section of the list. -/
theorem mem_foldl_setKey :
    ∀ (l : List SectionDoc) (init : List (String × String))
      (kv : String × String),
      kv ∈ l.foldl (fun acc s => setKey acc s.sectionId s.content) init →
      kv ∈ init ∨ ∃ s ∈ l, kv = (s.sectionId, s.content) := by
  intro l
  induction l with
  | nil => intro init kv h; exact Or.inl h
  | cons s rest ih =>
    intro init kv h
    rw [List.foldl_cons] at h
    rcases ih (setKey init s.sectionId s.content) kv h with h1 | ⟨t, ht, h2⟩
    · rcases mem_setKey init s.sectionId s.content kv h1 with h2 | h2
      · exact Or.inr ⟨s, List.mem_cons_self s rest, h2⟩
      · exact Or.inl h2
    · exact Or.inr ⟨t, List.mem_cons_of_mem s ht, h2⟩

/-- Every string in any handler's response body is drawn from the fixed
message constants, the request's non-secret strings, or the store's
non-password strings. -/
theorem handle_strings_safe (hash : String → String → Nat → String)
    (compare : String → String → Bool) (req : Req) (db : DB) :
    ∀ x ∈ ((handle hash compare req db).2.2).strings, x ∈ safeStrings req db := by
  cases req with
  | register salt nextId email username password dob gender file =>
    intro x hx
    by_cases hex : (db.users.any
        (fun v => v.email == email || v.username == username)) = true
    · have hr : (handle hash compare
          (.register salt nextId email username password dob gender file) db).2.2 =
          Resp.msg "Email or username already exists" := by
        simp [handle, register, hex]
      rw [hr] at hx
      rcases List.mem_singleton.1 hx with rfl
      exact mem_safe_msg _ _ (by simp [messageConsts])
    · have hr : (handle hash compare
          (.register salt nextId email username password dob gender file) db).2.2 =
          Resp.msg "User registered successfully" := by
        simp [handle, register, hex]
      rw [hr] at hx
      rcases List.mem_singleton.1 hx with rfl
      exact mem_safe_msg _ _ (by simp [messageConsts])
  | login username password =>
    intro x hx
    cases hf : db.users.find? (fun u => u.username == username) with
    | none =>
      have hr : (handle hash compare (.login username password) db).2.2 =
          Resp.msg "Invalid username or password" := by
        simp [handle, login, hf]
      rw [hr] at hx
      rcases List.mem_singleton.1 hx with rfl
      exact mem_safe_msg _ _ (by simp [messageConsts])
    | some w =>
      have hw : w ∈ db.users := List.mem_of_find?_eq_some hf
      by_cases hc : compare password w.password = true
      · have hr : (handle hash compare (.login username password) db).2.2 =
            Resp.loginOk w.username w.profilePicture w.id := by
          simp [handle, login, hf, hc]
        rw [hr] at hx
        rcases List.mem_cons.1 hx with rfl | h1
        · exact mem_safe_db _ _ (username_mem_db db w hw)
        · rcases Option.mem_toList.1 h1 with hpp
          exact mem_safe_db _ _ (profilePicture_mem_db db w hw x hpp)
      · have hr : (handle hash compare (.login username password) db).2.2 =
            Resp.msg "Invalid username or password" := by
          simp [handle, login, hf, Bool.eq_false_iff.2 hc]
        rw [hr] at hx
        rcases List.mem_singleton.1 hx with rfl
        exact mem_safe_msg _ _ (by simp [messageConsts])
  | createPost nextId now userId content files =>
    intro x hx
    have hr : (handle hash compare (.createPost nextId now userId content files) db).2.2 =
        Resp.createPostOk "Post created successfully" (files.map fileUrl) := rfl
    rw [hr] at hx
    rcases List.mem_cons.1 hx with rfl | h1
    · exact mem_safe_msg _ _ (by simp [messageConsts])
    · exact mem_safe_req _ _ (List.mem_cons_of_mem _ h1)
  | userPosts userId =>
    intro x hx
    have hr : (handle hash compare (.userPosts userId) db).2.2 =
        Resp.posts (((db.posts.filter (fun p => p.userId == userId)).mergeSort
          (fun a b => decide (b.createdAt ≤ a.createdAt))).map (populatePost db)) := rfl
    rw [hr] at hx
    rcases List.mem_flatMap.1 hx with ⟨v, hv, hxv⟩
    rcases List.mem_map.1 hv with ⟨p, hp, rfl⟩
    have hpdb : p ∈ db.posts :=
      List.mem_of_mem_filter (List.mem_mergeSort.1 hp)
    rcases List.mem_cons.1 hxv with rfl | h1
    · exact mem_safe_db _ _ (post_content_mem_db db p hpdb)
    · rcases List.mem_append.1 h1 with h2 | h2
      · exact mem_safe_db _ _ (post_image_mem_db db p hpdb x h2)
      · cases hfw : db.users.find? (fun u => u.id == p.userId) with
        | none =>
          rw [show (populatePost db p).user =
              (db.users.find? (fun u => u.id == p.userId)).map
                (fun u => (u.id, u.username, u.profilePicture)) from rfl, hfw] at h2
          cases h2
        | some w =>
          have hwdb : w ∈ db.users := List.mem_of_find?_eq_some hfw
          rw [show (populatePost db p).user =
              (db.users.find? (fun u => u.id == p.userId)).map
                (fun u => (u.id, u.username, u.profilePicture)) from rfl, hfw] at h2
          rcases List.mem_cons.1 h2 with rfl | h3
          · exact mem_safe_db _ _ (username_mem_db db w hwdb)
          · rcases Option.mem_toList.1 h3 with hpp
            exact mem_safe_db _ _ (profilePicture_mem_db db w hwdb x hpp)
  | updateProfilePicture userId file =>
    intro x hx
    cases hf : db.users.find? (fun v => v.id == userId) with
    | none =>
      have hr : (handle hash compare (.updateProfilePicture userId file) db).2.2 =
          Resp.msg "User not found" := by
        simp [handle, updateProfilePicture, hf]
      rw [hr] at hx
      rcases List.mem_singleton.1 hx with rfl
      exact mem_safe_msg _ _ (by simp [messageConsts])
    | some w =>
      have hr : (handle hash compare (.updateProfilePicture userId file) db).2.2 =
          Resp.updatePicOk "Profile picture updated successfully" (file.map fileUrl) := by
        simp [handle, updateProfilePicture, hf]
      rw [hr] at hx
      rcases List.mem_cons.1 hx with rfl | h1
      · exact mem_safe_msg _ _ (by simp [messageConsts])
      · rcases Option.mem_toList.1 h1 with hpp
        refine mem_safe_req _ _ ?_
        simp [Req.publicStrings, hpp]
  | searchUsers query =>
    intro x hx
    cases query with
    | none =>
      rcases List.mem_singleton.1 hx with rfl
      exact mem_safe_msg _ _ (by simp [messageConsts])
    | some q =>
      by_cases hq : (q == "") = true
      · have hr : (handle hash compare (.searchUsers (some q)) db).2.2 =
            Resp.msg "Query parameter is required" := by
          simp [handle, searchUsers, hq]
        rw [hr] at hx
        rcases List.mem_singleton.1 hx with rfl
        exact mem_safe_msg _ _ (by simp [messageConsts])
      · have hr : (handle hash compare (.searchUsers (some q)) db).2.2 =
            Resp.searchOk ((db.users.filter
              (fun u => regexSearch q.data u.username.data)).map
                (fun u => (u.id, u.username))) := by
          simp [handle, searchUsers, Bool.eq_false_iff.2 hq]
        rw [hr] at hx
        rcases List.mem_map.1 hx with ⟨e, he, rfl⟩
        rcases List.mem_map.1 he with ⟨w, hw, rfl⟩
        exact mem_safe_db _ _
          (username_mem_db db w (List.mem_of_mem_filter hw))
  | getUser userId =>
    intro x hx
    cases hf : db.users.find? (fun u => u.id == userId) with
    | none =>
      have hr : (handle hash compare (.getUser userId) db).2.2 =
          Resp.msg "User not found" := by
        simp [handle, getUser, hf]
      rw [hr] at hx
      rcases List.mem_singleton.1 hx with rfl
      exact mem_safe_msg _ _ (by simp [messageConsts])
    | some w =>
      have hwdb : w ∈ db.users := List.mem_of_find?_eq_some hf
      have hr : (handle hash compare (.getUser userId) db).2.2 =
          Resp.userOk w.id w.username w.profilePicture := by
        simp [handle, getUser, hf]
      rw [hr] at hx
      rcases List.mem_cons.1 hx with rfl | h1
      · exact mem_safe_db _ _ (username_mem_db db w hwdb)
      · rcases Option.mem_toList.1 h1 with hpp
        exact mem_safe_db _ _ (profilePicture_mem_db db w hwdb x hpp)
  | saveSection userId sectionId content =>
    intro x hx
    cases hf : db.sections.find?
        (fun s => s.userId == userId && s.sectionId == sectionId) with
    | some s =>
      have hsdb : s ∈ db.sections := List.mem_of_find?_eq_some hf
      have hpair : s.userId = userId ∧ s.sectionId = sectionId := by
        simpa using List.find?_some hf
      have hr : (handle hash compare (.saveSection userId sectionId content) db).2.2 =
          Resp.sectionOk { s with content := content } := by
        simp [handle, saveSection, hf]
      rw [hr] at hx
      rcases List.mem_cons.1 hx with rfl | h1
      · exact mem_safe_db _ _
          (section_strings_mem_db db s hsdb _ (Or.inl rfl))
      · rcases List.mem_singleton.1 h1 with rfl
        exact mem_safe_req _ _ (by simp [Req.publicStrings])
    | none =>
      have hr : (handle hash compare (.saveSection userId sectionId content) db).2.2 =
          Resp.sectionOk ⟨userId, sectionId, content⟩ := by
        simp [handle, saveSection, hf]
      rw [hr] at hx
      rcases List.mem_cons.1 hx with rfl | h1
      · exact mem_safe_req _ _ (by simp [Req.publicStrings])
      · rcases List.mem_singleton.1 h1 with rfl
        exact mem_safe_req _ _ (by simp [Req.publicStrings])
  | deletePost postId =>
    intro x hx
    rcases List.mem_singleton.1 hx with rfl
    exact mem_safe_msg _ _ (by simp [messageConsts])
  | getSections userId =>
    intro x hx
    have hr : (handle hash compare (.getSections userId) db).2.2 =
        Resp.sectionsOk ((db.sections.filter (fun s => s.userId == userId)).foldl
          (fun acc s => setKey acc s.sectionId s.content) []) := rfl
    rw [hr] at hx
    rcases List.mem_flatMap.1 hx with ⟨kv, hkv, hxkv⟩
    rcases mem_foldl_setKey _ [] kv hkv with h1 | ⟨s, hs, rfl⟩
    · cases h1
    · have hsdb : s ∈ db.sections := List.mem_of_mem_filter hs
      rcases List.mem_cons.1 hxkv with rfl | h2
      · exact mem_safe_db _ _ (section_strings_mem_db db s hsdb _ (Or.inl rfl))
      · rcases List.mem_singleton.1 h2 with rfl
        exact mem_safe_db _ _ (section_strings_mem_db db s hsdb _ (Or.inr rfl))

/-- C4. Under a one-way hash (no salt and cost-10 input hashes to
itself), in every store state reachable from empty by any request sequence,
every stored user's password field is a salted cost-10 hash of some
submitted password, and in particular never the plaintext; and every string
in any endpoint's response body comes from the fixed message constants, the
request's non-secret strings, or the store's non-password strings — so
neither a plaintext password nor a stored hash can appear in a response
unless it coincides with one of those public strings. -/
theorem no_plaintext_spec (hash : String → String → Nat → String)
    (compare : String → String → Bool)
    (honeway : ∀ s p, hash s p 10 ≠ p) :
    (∀ reqs : List Req, ∀ u ∈ (run hash compare DB.empty reqs).users,
      ∃ s p, u.password = hash s p 10 ∧ u.password ≠ p)
    ∧ (∀ (req : Req) (db : DB) (x : String),
        x ∈ ((handle hash compare req db).2.2).strings → x ∈ safeStrings req db) := by
  constructor
  · intro reqs u hu
    rcases run_passwords_hashed hash compare reqs DB.empty
      (by simp [DB.empty]) u hu with ⟨s, p, hp⟩
    exact ⟨s, p, hp, fun hcon => honeway s p (hp.symm.trans hcon)⟩
  · intro req db x hx
    exact handle_strings_safe hash compare req db x hx

/-- Witness for C4: with the toy hash `"#" ++ p` (one-way: it lengthens its
input), after registering `alice` the stored password is the hash `#pw`, not
the plaintext; and the public-profile response of `alice` only exposes safe
strings. -/
theorem no_plaintext_spec_witness :
    (∃ s p, (⟨1, "a@x.com", "alice", "#pw", none, none, none⟩ : User).password =
        (fun (_ p : String) (_ : Nat) => "#" ++ p) s p 10
      ∧ (⟨1, "a@x.com", "alice", "#pw", none, none, none⟩ : User).password ≠ p)
    ∧ "alice" ∈ safeStrings (Req.getUser 1)
        ⟨[⟨1, "a@x.com", "alice", "#pw", none, none, none⟩], [], []⟩ := by
  have h := no_plaintext_spec (fun _ p _ => "#" ++ p) (fun p h => h == "#" ++ p)
    (by
      intro s p hcon
      have hl := congrArg String.length hcon
      rw [String.length_append] at hl
      have h1 : ("#" : String).length = 1 := rfl
      omega)
  exact ⟨h.1 [Req.register "s" 1 "a@x.com" "alice" "pw" none none none]
      ⟨1, "a@x.com", "alice", "#pw", none, none, none⟩ (by decide),
    h.2 (Req.getUser 1)
      ⟨[⟨1, "a@x.com", "alice", "#pw", none, none, none⟩], [], []⟩ "alice"
      (by decide)⟩

end MyWebsiteBackend
